import Mathlib

/-!
Shallow embedding of the beacon-chain state transition core
(`atc_chain/state/state_transition.py`) and proofs of the spec claims.

Hashes, public keys and signatures are represented as natural numbers;
balances and slot counters that can go negative in Python integer
arithmetic are represented as `Int`.  The BLS oracle, the blake digest
and the signed-parent-hash reconstruction are abstracted as oracle
parameters, as the spec declares them external.  Python floor division
(`//`) is `Int.fdiv`.  Exceptions (`KeyError`, assertion failures) are
modelled with `Option`, `ValidationError` with `Except String`.
-/

namespace AtcChain

structure ValidatorRecord where
  pubkey : Nat
  balance : Int
  start_dynasty : Nat
  end_dynasty : Nat
deriving DecidableEq

structure CrosslinkRecord where
  dynasty : Nat
  slot : Nat
  hash : Nat
deriving DecidableEq

structure ShardAndCommittee where
  shard_id : Nat
  committee : List Nat
deriving DecidableEq

structure AttestationRecord where
  slot : Nat
  shard_id : Nat
  oblique_parent_hashes : List Nat
  shard_block_hash : Nat
  attester_bitfield : List Nat
  justified_slot : Nat
  justified_block_hash : Nat
  aggregate_sig : Nat
deriving DecidableEq

structure Block where
  parent_hash : Nat
  slot_number : Nat
  attestations : List AttestationRecord
  hash : Nat
deriving DecidableEq

structure VoteRecord where
  voter_indices : List Nat
  total_voter_deposits : Int
deriving DecidableEq

structure Chain where
  head : Option Block
  blocks : List Block

structure ActiveState where
  pending_attestations : List AttestationRecord
  recent_block_hashes : List Nat
  block_vote_cache : Nat → Option VoteRecord
  chain : Chain

structure CrystallizedState where
  validators : List ValidatorRecord
  last_state_recalc : Nat
  shard_and_committee_for_slots : List (List ShardAndCommittee)
  last_justified_slot : Int
  justified_streak : Nat
  last_finalized_slot : Int
  current_dynasty : Nat
  crosslink_records : List CrosslinkRecord
  dynasty_seed : Nat
  dynasty_start : Nat
deriving DecidableEq

structure Config where
  cycle_length : Nat
  shard_count : Nat
  min_dynasty_length : Nat
  base_reward_quotient : Nat
  sqrt_e_drop_time : Nat
  slot_duration : Nat
deriving DecidableEq

/-- External oracles declared out of scope by the spec: the
signed-parent-hash reconstruction, the aggregate-signature check
(blake digest plus BLS verification collapsed into one boolean), and
the validator shuffling used at dynasty transitions. -/
structure Oracles where
  gsph : ActiveState → Block → AttestationRecord → List Nat
  sigOk : AttestationRecord → List Nat → List Nat → Bool
  shuffler : Nat → List ValidatorRecord → Nat → Nat → List (List ShardAndCommittee)

def WEI_PER_ETH : Int := 1000000000000000000

/-- Modelled from the spec: `has_voted(bf, i)` of the missing bitfield
helper module returns bit `i` (MSB-first within byte `i/8`) of the
packed byte sequence. -/
def has_voted (bf : List Nat) (i : Nat) : Bool :=
  Nat.testBit (bf.getD (i / 8) 0) (7 - i % 8)

/-- Modelled from the spec: `get_bitfield_length(n) = (n + 7) / 8`. -/
def get_bitfield_length (n : Nat) : Nat := (n + 7) / 8

/-- Modelled from the spec: `get_empty_bitfield(n)` returns zero bytes of
length `get_bitfield_length(n)`. -/
def get_empty_bitfield (n : Nat) : List Nat :=
  List.replicate (get_bitfield_length n) 0

/-- Modelled from the spec: `or_bitfields` returns the elementwise OR of
the given bitfields (all inputs are assumed to share one length). -/
def or_bitfields (bfs : List (List Nat)) : List Nat :=
  match bfs with
  | [] => []
  | b :: rest => rest.foldl (fun acc x => List.zipWith (fun a c => a ||| c) acc x) b

/-- Descent from a candidate down to the largest `n` with `n * n ≤ x`. -/
def int_sqrt_go (x : Nat) : Nat → Nat
  | 0 => 0
  | n + 1 => if (n + 1) * (n + 1) ≤ x then n + 1 else int_sqrt_go x n

/-- Modelled from the spec: `int_sqrt(x)` is the integer floor of the
square root of `x` (structural recursion keeps it kernel reducible). -/
def int_sqrt (x : Nat) : Nat := int_sqrt_go x x

/-- Modelled from the spec: `get_active_validator_indices(dynasty,
validators)` returns the indices `i` with
`start_dynasty <= dynasty < end_dynasty`. -/
def get_active_validator_indices (dynasty : Nat) (validators : List ValidatorRecord) : List Nat :=
  (List.range validators.length).filter (fun i =>
    match validators.get? i with
    | some v => decide (v.start_dynasty ≤ dynasty ∧ dynasty < v.end_dynasty)
    | none => false)

/-- Balance of the validator at index `i` (0 when out of range; all uses
in the source stay in range). -/
def balance_at (vs : List ValidatorRecord) (i : Nat) : Int :=
  ((vs.get? i).map (fun v => v.balance)).getD 0

/-- Public key of the validator at index `i`. -/
def pubkey_at (vs : List ValidatorRecord) (i : Nat) : Nat :=
  ((vs.get? i).map (fun v => v.pubkey)).getD 0

/-- Modelled from the spec: the derived `total_deposits` property of the
crystallized state is the sum of the balances of the validators active
in the current dynasty. -/
def total_deposits (cSt : CrystallizedState) : Int :=
  ((get_active_validator_indices cSt.current_dynasty cSt.validators).map
    (balance_at cSt.validators)).sum

/-- Modelled from the spec: `get_shards_and_committees_for_slot` indexes
`shard_and_committee_for_slots` at `slot - (last_state_recalc -
cycle_length)`. -/
def get_shards_and_committees_for_slot (cSt : CrystallizedState) (slot : Int)
    (cfg : Config) : List ShardAndCommittee :=
  let idx : Int := slot - ((cSt.last_state_recalc : Int) - (cfg.cycle_length : Int))
  if idx < 0 then []
  else (cSt.shard_and_committee_for_slots.get? idx.toNat).getD []

/-- Committee scheduled for the pair `(slot, shard)`. -/
def committee_for (cSt : CrystallizedState) (slot shard : Nat) (cfg : Config) : List Nat :=
  (((get_shards_and_committees_for_slot cSt (slot : Int) cfg).find?
      (fun sc => sc.shard_id == shard)).map (fun sc => sc.committee)).getD []

/-- Modelled from the spec: `get_attestation_indices(cs, att)` returns
the committee for `(att.slot, att.shard_id)`. -/
def get_attestation_indices (cSt : CrystallizedState) (att : AttestationRecord)
    (cfg : Config) : List Nat :=
  committee_for cSt att.slot att.shard_id cfg

/-- Modelled from the spec: `get_proposer_position(parent_block, cs)`
takes the first committee scheduled for the parent slot and returns
`(parent_slot mod committee size, shard_id)`. -/
def get_proposer_position (parent_block : Block) (cSt : CrystallizedState)
    (cfg : Config) : Nat × Nat :=
  let sc := (get_shards_and_committees_for_slot cSt (parent_block.slot_number : Int) cfg).headD
    ⟨0, []⟩
  (parent_block.slot_number % sc.committee.length, sc.shard_id)

/-- Modelled from the spec: the chain supports lookup of a block by its
hash. -/
def Chain.get_block_by_hash (c : Chain) (h : Nat) : Option Block :=
  c.blocks.find? (fun b => b.hash == h)

/-- Modelled from the spec: the chain supports lookup of a block by its
slot number. -/
def Chain.get_block_by_slot_number (c : Chain) (s : Nat) : Option Block :=
  c.blocks.find? (fun b => b.slot_number == s)

/-- Modelled from the spec: `get_new_recent_block_hashes` shifts the
window left by `new_slot - parent_slot` positions and pads the right
with that many copies of `parent_hash`. -/
def get_new_recent_block_hashes (prev : List Nat) (parent_slot new_slot parent_hash : Nat) :
    List Nat :=
  let d := new_slot - parent_slot
  prev.drop d ++ List.replicate d parent_hash

/-- `fill_recent_block_hashes` of the source: refresh the hash window,
keep everything else. -/
def fill_recent_block_hashes (aSt : ActiveState) (parent_block block : Block) : ActiveState :=
  let rbh := get_new_recent_block_hashes aSt.recent_block_hashes parent_block.slot_number
    block.slot_number block.parent_hash
  { aSt with recent_block_hashes := rbh }

/-- `validate_parent_block_proposer` of the source: outside slot 0, the
first attestation of the block must be the proposer attestation. -/
def proposer_attestation_ok (cSt : CrystallizedState) (parent_block : Block)
    (a : AttestationRecord) (cfg : Config) : Bool :=
  let pos := get_proposer_position parent_block cSt cfg
  a.shard_id == pos.2 && a.slot == parent_block.slot_number &&
    has_voted a.attester_bitfield pos.1

def validate_parent_block_proposer (block parent_block : Block)
    (cSt : CrystallizedState) (cfg : Config) : Except String Unit :=
  if block.slot_number = 0 then Except.ok ()
  else
    match block.attestations with
    | [] => Except.error "block.attestations should not be an empty list"
    | a :: _ =>
      if proposer_attestation_ok cSt parent_block a cfg then Except.ok ()
      else Except.error "proposer of parent block is not among the attesters"

/-- `validate_attestation` of the source, checks in source order; the
aggregate-signature condition is delegated to the oracle. -/
def validate_attestation (O : Oracles) (cSt : CrystallizedState) (aSt : ActiveState)
    (att : AttestationRecord) (block parent_block : Block) (cfg : Config) :
    Except String Unit :=
  if ¬ (att.slot ≤ parent_block.slot_number) then
    Except.error "Attestation slot number too high"
  else if ¬ (max ((parent_block.slot_number : Int) - (cfg.cycle_length : Int) + 1) 0
      ≤ (att.slot : Int)) then
    Except.error "Attestation slot number too low"
  else if cSt.last_justified_slot < (att.justified_slot : Int) then
    Except.error "attestation justified_slot is later than last_justified_slot"
  else
    match aSt.chain.get_block_by_hash att.justified_block_hash with
    | none => Except.error "justified_block_hash is not in the canonical chain"
    | some jb =>
      if jb.slot_number ≠ att.justified_slot then
        Except.error "justified_slot does not match justified_block_hash"
      else
        let parent_hashes := O.gsph aSt block att
        let attestation_indices := get_attestation_indices cSt att cfg
        if att.attester_bitfield.length ≠ get_bitfield_length attestation_indices.length then
          Except.error "Attestation has incorrect bitfield length"
        else if attestation_indices.length % 8 ≠ 0 ∧
            (List.range (8 - attestation_indices.length % 8)).any
              (fun i => has_voted att.attester_bitfield (attestation_indices.length + i)) then
          Except.error "Attestation has non-zero trailing bits"
        else
          let pub_keys := attestation_indices.enum.filterMap (fun p =>
            if has_voted att.attester_bitfield p.1 then some (pubkey_at cSt.validators p.2)
            else none)
          if O.sigOk att parent_hashes pub_keys then Except.ok ()
          else Except.error "Attestation aggregate signature fails"

/-- `get_updated_block_vote_cache` of the source: fold the votes of one
attestation into the cache, one signed parent hash at a time. -/
def get_updated_block_vote_cache (O : Oracles) (cSt : CrystallizedState) (aSt : ActiveState)
    (att : AttestationRecord) (block : Block) (cache : Nat → Option VoteRecord)
    (cfg : Config) : Nat → Option VoteRecord :=
  let parent_hashes := O.gsph aSt block att
  let attestation_indices := get_attestation_indices cSt att cfg
  parent_hashes.foldl (fun cache ph =>
    if att.oblique_parent_hashes.contains ph then cache
    else
      let entry := (cache ph).getD ⟨[], 0⟩
      let entry1 := attestation_indices.enum.foldl (fun e p =>
        if has_voted att.attester_bitfield p.1 && !(e.voter_indices.contains p.2) then
          ⟨p.2 :: e.voter_indices, e.total_voter_deposits + balance_at cSt.validators p.2⟩
        else e) entry
      fun h => if h = ph then some entry1 else cache h) cache

/-- `process_block` of the source: validate the proposer attestation,
then validate every attestation and fold it into the vote cache; on
success extend the pending attestations and the chain. -/
def process_block (O : Oracles) (cSt : CrystallizedState) (aSt : ActiveState)
    (block parent_block : Block) (cfg : Config) : Except String ActiveState :=
  match validate_parent_block_proposer block parent_block cSt cfg with
  | Except.error e => Except.error e
  | Except.ok _ =>
    match block.attestations.foldlM (fun cache att =>
        match validate_attestation O cSt aSt att block parent_block cfg with
        | Except.error e => Except.error e
        | Except.ok _ =>
          Except.ok (get_updated_block_vote_cache O cSt aSt att block cache cfg))
        aSt.block_vote_cache with
    | Except.error e => (Except.error e : Except String ActiveState)
    | Except.ok cache =>
      Except.ok ⟨aSt.pending_attestations ++ block.attestations,
        aSt.recent_block_hashes, cache,
        ⟨some block, aSt.chain.blocks ++ [block]⟩⟩

/-- Balance-weighted votes cast in one attestation: the sum of the
balances of the committee members whose bitfield position is set. -/
def att_voted_balance (cSt : CrystallizedState) (a : AttestationRecord) (cfg : Config) : Int :=
  ((get_attestation_indices cSt a cfg).enum.filterMap (fun p =>
    if has_voted a.attester_bitfield p.1 then some (balance_at cSt.validators p.2)
    else none)).sum

/-- Total balance of a committee. -/
def committee_balance (cSt : CrystallizedState) (committee : List Nat) : Int :=
  (committee.map (balance_at cSt.validators)).sum

/-- One iteration of the crosslink loop of
`process_updated_crosslinks`: accumulate the balance of the group
`(shard_id, shard_block_hash)` and, when the 2/3 threshold is met and
the current record belongs to an older dynasty, replace the record. -/
def crosslink_step (cSt : CrystallizedState) (cfg : Config)
    (st : ((Nat × Nat) → Int) × List CrosslinkRecord) (a : AttestationRecord) :
    ((Nat × Nat) → Int) × List CrosslinkRecord :=
  let committee := get_attestation_indices cSt a cfg
  let total_committee_balance := committee_balance cSt committee
  let new_balance := st.1 (a.shard_id, a.shard_block_hash) + att_voted_balance cSt a cfg
  let tab1 : (Nat × Nat) → Int :=
    fun k => if k = (a.shard_id, a.shard_block_hash) then new_balance else st.1 k
  if 2 * total_committee_balance ≤ 3 * new_balance ∧
      ((st.2.get? a.shard_id).getD ⟨0, 0, 0⟩).dynasty < cSt.current_dynasty then
    (tab1, st.2.set a.shard_id
      ⟨cSt.current_dynasty, cSt.last_state_recalc + cfg.cycle_length, a.shard_block_hash⟩)
  else (tab1, st.2)

/-- `process_updated_crosslinks` of the source. -/
def process_updated_crosslinks (cSt : CrystallizedState) (aSt : ActiveState)
    (cfg : Config) : List CrosslinkRecord :=
  (aSt.pending_attestations.foldl (crosslink_step cSt cfg)
    (fun _ => 0, cSt.crosslink_records)).2

/-- Guarded vote cache lookup of the justification loop in
`initialize_new_cycle`: the deposit total when the hash is present,
0 otherwise. -/
def vote_balance_of (cache : Nat → Option VoteRecord) (h : Nat) : Int :=
  match cache h with
  | some vr => vr.total_voter_deposits
  | none => 0

/-- One iteration of the justification and finality loop of
`initialize_new_cycle`; the state is
`(last_justified_slot, justified_streak, last_finalized_slot)`. -/
def justification_step (td : Int) (cl lsr : Nat) (rbh : List Nat)
    (cache : Nat → Option VoteRecord) (st : Int × Nat × Int) (i : Nat) :
    Int × Nat × Int :=
  let slot : Int := (i : Int) + ((lsr : Int) - (cl : Int))
  let vote_balance := vote_balance_of cache (rbh.getD i 0)
  let st1 : Int × Nat × Int :=
    if 2 * td ≤ 3 * vote_balance then (max st.1 slot, st.2.1 + 1, st.2.2)
    else (st.1, 0, st.2.2)
  if cl + 1 ≤ st1.2.1 then (st1.1, st1.2.1, max st1.2.2 (slot - (cl : Int) - 1))
  else st1

/-- The justification and finality loop of `initialize_new_cycle`. -/
def justification_loop (td : Int) (cl lsr : Nat) (rbh : List Nat)
    (cache : Nat → Option VoteRecord) (init : Int × Nat × Int) : Int × Nat × Int :=
  (List.range cl).foldl (justification_step td cl lsr rbh cache) init

/-- `get_reward_context` of the source: `None` models the assertion
failures (`total_deposits > 0`, exact quadratic penalty quotient). -/
def get_reward_context (td : Int) (cfg : Config) : Option (Int × Nat) :=
  if 0 < td ∧ 0 < cfg.slot_duration ∧ cfg.slot_duration ∣ cfg.sqrt_e_drop_time then
    some ((cfg.base_reward_quotient : Int) * (int_sqrt (td.fdiv WEI_PER_ETH).toNat : Nat),
      (cfg.sqrt_e_drop_time / cfg.slot_duration) ^ 2)
  else none

/-- Python floor division: `a // b` rounds toward negative infinity
and raises `ZeroDivisionError` on a zero divisor, modelled as `none`. -/
def pydiv (a b : Int) : Option Int :=
  if b = 0 then none else some (a.fdiv b)

/-- Add `v` to entry `i` of a reward list. -/
def add_reward (rw : List Int) (i : Nat) (v : Int) : List Int :=
  match rw, i with
  | [], _ => []
  | a :: t, 0 => (a + v) :: t
  | a :: t, n + 1 => a :: add_reward t n v

/-- The per-slot body of the FFG reward loop, after the block at the
slot has been resolved to its vote cache data.  Every `//` of the
source is `pydiv`, so a zero `reward_quotient`, `total_deposits` or
`quadratic_penalty_quotient` fails exactly where Python raises
`ZeroDivisionError` (only when the division is executed). -/
def ffg_apply (vs : List ValidatorRecord) (active_ids : List Nat) (tsf td rq : Int)
    (qpq cl : Nat) (tpd : Int) (voters : List Nat) (rewards : List Int) :
    Option (List Int) :=
  let participating := active_ids.filter (fun i => voters.contains i)
  let non_participating := active_ids.filter (fun i => !(voters.contains i))
  if tsf ≤ 3 * (cl : Int) then
    match participating.foldlM (fun rw i =>
        (pydiv (balance_at vs i) rq).bind (fun q1 =>
          (pydiv (q1 * (2 * tpd - td)) td).map (fun q2 => add_reward rw i q2)))
        rewards with
    | none => none
    | some r1 =>
      non_participating.foldlM (fun rw i =>
        (pydiv (balance_at vs i) rq).map (fun q1 => add_reward rw i (-q1))) r1
  else
    non_participating.foldlM (fun rw i =>
      (pydiv (balance_at vs i) rq).bind (fun q1 =>
        (pydiv ((balance_at vs i) * tsf) (qpq : Int)).map (fun q2 =>
          add_reward rw i (-(q1 + q2))))) rewards

/-- The per-slot step of the FFG reward loop.  The vote cache lookup is
unguarded in the source (`block_vote_cache[block_hash]`), so a missing
entry is a `KeyError`, modelled as `none`. -/
def ffg_slot_step (cSt : CrystallizedState) (aSt : ActiveState) (active_ids : List Nat)
    (tsf td rq : Int) (qpq cl : Nat) (rewards : List Int) (slot : Nat) :
    Option (List Int) :=
  match aSt.chain.get_block_by_slot_number slot with
  | some b =>
    match aSt.block_vote_cache b.hash with
    | none => none
    | some vr =>
      ffg_apply cSt.validators active_ids tsf td rq qpq cl
        vr.total_voter_deposits vr.voter_indices rewards
  | none => ffg_apply cSt.validators active_ids tsf td rq qpq cl 0 [] rewards

/-- The slot window `[max(last_state_recalc - cycle_length, 0),
last_state_recalc)` iterated by both reward loops. -/
def slot_range (lsr cl : Nat) : List Nat :=
  List.range' (lsr - cl) (lsr - (lsr - cl))

/-- `calculate_ffg_rewards` of the source. -/
def calculate_ffg_rewards (cSt : CrystallizedState) (aSt : ActiveState) (block : Block)
    (cfg : Config) : Option (List Int) :=
  let active_ids := get_active_validator_indices cSt.current_dynasty cSt.validators
  let tsf : Int := (block.slot_number : Int) - cSt.last_finalized_slot
  let td := total_deposits cSt
  match get_reward_context td cfg with
  | none => none
  | some rc =>
    (slot_range cSt.last_state_recalc cfg.cycle_length).foldlM
      (ffg_slot_step cSt aSt active_ids tsf td rc.1 rc.2 cfg.cycle_length)
      (List.replicate cSt.validators.length 0)

/-- Participation data collected for one shard by
`calculate_crosslink_rewards`. -/
structure CommitteeCrosslink where
  participating : List Nat
  non_participating : List Nat
  total_participated : Int
  total : Int
deriving DecidableEq

/-- Collect the participation data of one scheduled
`(slot, shard_and_committee)` pair into the per-shard table. -/
def crosslink_collect (cSt : CrystallizedState) (aSt : ActiveState) (slot : Nat)
    (table : List (Nat × CommitteeCrosslink)) (sc : ShardAndCommittee) :
    List (Nat × CommitteeCrosslink) :=
  let entry := ((table.find? (fun p => p.1 == sc.shard_id)).map (fun p => p.2)).getD
    ⟨[], [], 0, 0⟩
  let atts := aSt.pending_attestations.filter
    (fun a => a.slot == slot && a.shard_id == sc.shard_id)
  let bitfield :=
    if atts.isEmpty then get_empty_bitfield sc.committee.length
    else or_bitfields (atts.map (fun a => a.attester_bitfield))
  let entry1 := sc.committee.enum.foldl (fun e p =>
    let bal := balance_at cSt.validators p.2
    if has_voted bitfield p.1 then
      ⟨e.participating ++ [p.2], e.non_participating, e.total_participated + bal, e.total + bal⟩
    else
      ⟨e.participating, e.non_participating ++ [p.2], e.total_participated, e.total + bal⟩)
    entry
  if (table.find? (fun p => p.1 == sc.shard_id)).isSome then
    table.map (fun p => if p.1 == sc.shard_id then (sc.shard_id, entry1) else p)
  else table ++ [(sc.shard_id, entry1)]

/-- `calculate_crosslink_rewards` of the source; every `//` is `pydiv`,
so the zero-divisor cases of the source (`reward_quotient`,
`quadratic_penalty_quotient`, `total_v_deposits`) fail exactly where
Python raises `ZeroDivisionError`. -/
def calculate_crosslink_rewards (cSt : CrystallizedState) (aSt : ActiveState)
    (block : Block) (cfg : Config) : Option (List Int) :=
  match get_reward_context (total_deposits cSt) cfg with
  | none => none
  | some rc =>
    let table := (slot_range cSt.last_state_recalc cfg.cycle_length).foldl
      (fun tb (slot : Nat) => (get_shards_and_committees_for_slot cSt (slot : Int) cfg).foldl
        (crosslink_collect cSt aSt slot) tb) []
    table.foldlM (fun rewards p =>
      let crosslink := (cSt.crosslink_records.get? p.1).getD ⟨0, 0, 0⟩
      if crosslink.dynasty == cSt.current_dynasty then some rewards
      else
        let tslc : Int := (block.slot_number : Int) - (crosslink.slot : Int)
        match p.2.participating.foldlM (fun rw vi =>
            (pydiv (balance_at cSt.validators vi) rc.1).bind (fun q1 =>
              (pydiv (q1 * (2 * p.2.total_participated - p.2.total)) p.2.total).map
                (fun q2 => add_reward rw vi q2))) rewards with
        | none => none
        | some r1 =>
          p.2.non_participating.foldlM (fun rw vi =>
            (pydiv (balance_at cSt.validators vi) rc.1).bind (fun q1 =>
              (pydiv ((balance_at cSt.validators vi) * tslc) (rc.2 : Int)).map
                (fun q2 => add_reward rw vi (-(q1 + q2))))) r1)
      (List.replicate cSt.validators.length 0)

/-- Replace element `i` of a list by `f` applied to it. -/
def list_modify (l : List α) (i : Nat) (f : α → α) : List α :=
  match l, i with
  | [], _ => []
  | a :: t, 0 => f a :: t
  | a :: t, n + 1 => a :: list_modify t n f

/-- `apply_rewards_and_penalties` of the source: add the FFG and
crosslink deltas to each active validator and clamp at zero. -/
def apply_rewards_and_penalties (cSt : CrystallizedState) (aSt : ActiveState)
    (block : Block) (cfg : Config) : Option (List ValidatorRecord) :=
  match calculate_ffg_rewards cSt aSt block cfg with
  | none => none
  | some ffg =>
    match calculate_crosslink_rewards cSt aSt block cfg with
    | none => none
    | some cross =>
      some ((get_active_validator_indices cSt.current_dynasty cSt.validators).foldl
        (fun vs i => list_modify vs i (fun v =>
          let b := v.balance + ffg.getD i 0 + cross.getD i 0
          { v with balance := if b < 0 then 0 else b }))
        cSt.validators)

/-- `initialize_new_cycle` of the source: justification loop, crosslink
update, pruning of pending attestations, reward application, stubbed
committee schedule, and advance of `last_state_recalc`. -/
def initialize_new_cycle (cSt : CrystallizedState) (aSt : ActiveState) (block : Block)
    (cfg : Config) : Option (CrystallizedState × ActiveState) :=
  let cl := cfg.cycle_length
  let J := justification_loop (total_deposits cSt) cl cSt.last_state_recalc
    aSt.recent_block_hashes aSt.block_vote_cache
    (cSt.last_justified_slot, cSt.justified_streak, cSt.last_finalized_slot)
  let crosslink_records := process_updated_crosslinks cSt aSt cfg
  let pending := aSt.pending_attestations.filter (fun a => cSt.last_state_recalc ≤ a.slot)
  match apply_rewards_and_penalties cSt aSt block cfg with
  | none => none
  | some validators =>
    some (⟨validators, cSt.last_state_recalc + cl,
      cSt.shard_and_committee_for_slots.drop cl ++ cSt.shard_and_committee_for_slots.drop cl,
      J.1, J.2.1, J.2.2,
      cSt.current_dynasty, crosslink_records, cSt.dynasty_seed, cSt.dynasty_start⟩,
      ⟨pending, aSt.recent_block_hashes, aSt.block_vote_cache, aSt.chain⟩)

/-- `ready_for_dynasty_transition` of the source. -/
def ready_for_dynasty_transition (cSt : CrystallizedState) (block : Block)
    (cfg : Config) : Bool :=
  if (block.slot_number : Int) - (cSt.dynasty_start : Int) < (cfg.min_dynasty_length : Int) then
    false
  else if cSt.last_finalized_slot ≤ (cSt.dynasty_start : Int) then false
  else
    let required := (cSt.shard_and_committee_for_slots.map
      (fun l => l.map (fun sc => sc.shard_id))).flatten
    cSt.crosslink_records.enum.all (fun p =>
      !(required.contains p.1) || decide (cSt.dynasty_start < p.2.slot))

/-- `compute_dynasty_transition` of the source: bump the dynasty, reset
its start slot, and replace the second half of the committee schedule
with the output of the shuffling oracle. -/
def compute_dynasty_transition (O : Oracles) (cSt : CrystallizedState) (block : Block)
    (cfg : Config) : CrystallizedState :=
  let next_start_shard :=
    ((((cSt.shard_and_committee_for_slots.getLast?).bind List.getLast?).map
      (fun sc => sc.shard_id)).getD 0 + 1) % cfg.shard_count
  { cSt with
    current_dynasty := cSt.current_dynasty + 1,
    dynasty_start := cSt.last_state_recalc,
    shard_and_committee_for_slots :=
      cSt.shard_and_committee_for_slots.take cfg.cycle_length ++
        O.shuffler block.parent_hash cSt.validators (cSt.current_dynasty + 1)
          next_start_shard }

/-- `compute_cycle_transitions` of the source.  The while loop is given
explicit fuel; exhausted fuel (`none`) models divergence, a raised
exception is `some (error _)`. -/
def compute_cycle_transitions (O : Oracles) :
    Nat → CrystallizedState → ActiveState → Block → Config →
      Option (Except String (CrystallizedState × ActiveState))
  | 0, cSt, aSt, block, cfg =>
    if cSt.last_state_recalc + cfg.cycle_length ≤ block.slot_number then none
    else some (Except.ok (cSt, aSt))
  | fuel' + 1, cSt, aSt, block, cfg =>
    if cSt.last_state_recalc + cfg.cycle_length ≤ block.slot_number then
      match initialize_new_cycle cSt aSt block cfg with
      | none => some (Except.error "reward computation failed")
      | some p =>
        compute_cycle_transitions O fuel'
          (if ready_for_dynasty_transition p.1 block cfg then
            compute_dynasty_transition O p.1 block cfg else p.1) p.2 block cfg
    else some (Except.ok (cSt, aSt))

/-- `validate_block_pre_processing_conditions` of the source is a
placeholder returning true. -/
def validate_block_pre_processing_conditions (_block _parent_block : Block)
    (_cSt : CrystallizedState) (_cfg : Config) : Bool :=
  true

/-- `compute_state_transition` of the source: fill the hash window,
process the block, then run the cycle transitions.  The fuel
`block.slot_number + 1` is proven sufficient whenever
`cycle_length >= 1`. -/
def compute_state_transition (O : Oracles) (parent : CrystallizedState × ActiveState)
    (parent_block block : Block) (cfg : Config) :
    Option (Except String (CrystallizedState × ActiveState)) :=
  let aSt1 := fill_recent_block_hashes parent.2 parent_block block
  match process_block O parent.1 aSt1 block parent_block cfg with
  | Except.error e => some (Except.error e)
  | Except.ok aSt2 =>
    compute_cycle_transitions O (block.slot_number + 1) parent.1 aSt2 block cfg

/-- True exactly when the transition result is a rejection
(a raised validation error). -/
def rejects (r : Option (Except String (CrystallizedState × ActiveState))) : Bool :=
  match r with
  | some (Except.error _) => true
  | _ => false

/-! Concrete states used by the witnesses and counterexamples. -/

/-- A minimal configuration: one-slot cycles, one shard, quadratic
penalty quotient 1, dynasty transitions out of reach. -/
def cfg1 : Config := ⟨1, 1, 99, 1, 1, 1⟩

/-- Trivial oracles for concrete runs: no signed parent hashes and an
always-accepting signature check. -/
def O0 : Oracles := ⟨fun _ _ _ => [], fun _ _ _ => true, fun _ _ _ _ => [[⟨0, [0]⟩]]⟩

def v1 : ValidatorRecord := ⟨0, 1, 0, 2⟩

def csA : CrystallizedState :=
  ⟨[v1], 0, [[⟨0, [0]⟩], [⟨0, [0]⟩]], 0, 0, 0, 1, [⟨0, 0, 0⟩], 0, 0⟩

def asA : ActiveState := ⟨[], [5, 6], fun _ => none, ⟨none, []⟩⟩

def blockA : Block := ⟨3, 0, [], 100⟩

/-- A pending attestation whose slot sits between the old and the new
recalc point. -/
def attP : AttestationRecord := ⟨0, 0, [], 9, [0], 0, 0, 0⟩

def asB : ActiveState := ⟨[attP], [5, 6], fun _ => none, ⟨none, []⟩⟩

/-- Attestations for the crosslink counterexample: same shard, same
full-committee vote, two different shard block hashes. -/
def attC1 : AttestationRecord := ⟨0, 0, [], 1, [128], 0, 0, 0⟩

def attC2 : AttestationRecord := ⟨0, 0, [], 2, [128], 0, 0, 0⟩

def asC : ActiveState := ⟨[attC1, attC2], [5, 6], fun _ => none, ⟨none, []⟩⟩

def asC1 : ActiveState := ⟨[attC1], [5, 6], fun _ => none, ⟨none, []⟩⟩

/-- Input on which the unguarded vote cache lookup of
`calculate_ffg_rewards` fails: the chain holds a block at slot 0 whose
hash is absent from the cache. -/
def csBad : CrystallizedState :=
  ⟨[⟨0, 1000000000000000000, 0, 2⟩], 1, [[⟨0, [0]⟩], [⟨0, [0]⟩]], 0, 0, 0, 1,
    [⟨0, 0, 0⟩], 0, 0⟩

def asBad : ActiveState := ⟨[], [5, 6], fun _ => none, ⟨none, [⟨0, 0, [], 42⟩]⟩⟩

/-- Validator holding one ETH, so that the reward quotient is 1. -/
def vW : ValidatorRecord := ⟨0, 1000000000000000000, 0, 2⟩

def genesisW : Block := ⟨0, 0, [], 7⟩

/-- One validator holding one ETH at the genesis recalc point, giving a
positive reward quotient. -/
def csE : CrystallizedState :=
  ⟨[vW], 0, [[⟨0, [0]⟩], [⟨0, [0]⟩]], 0, 0, 0, 1, [⟨0, 0, 0⟩], 0, 0⟩

/-- A pending attestation at slot 0 covering the whole committee. -/
def att0 : AttestationRecord := ⟨0, 0, [], 11, [128], 0, 7, 0⟩

/-- The proposer attestation carried by the incoming block. -/
def attW : AttestationRecord := ⟨1, 0, [], 11, [128], 0, 7, 0⟩

def parentW : Block := ⟨0, 1, [], 8⟩

def blockW : Block := ⟨9, 3, [attW], 12⟩

def cacheW : Nat → Option VoteRecord := fun h =>
  if h = 9 then some ⟨[0], 10000000000000000000⟩
  else if h = 7 then some ⟨[0], 1000000000000000000⟩
  else none

def csW : CrystallizedState :=
  ⟨[vW], 1, [[⟨0, [0]⟩], [⟨0, [0]⟩]], 0, 0, 0, 1, [⟨0, 0, 0⟩], 0, 0⟩

def asW : ActiveState := ⟨[att0], [5, 6], cacheW, ⟨some genesisW, [genesisW]⟩⟩

/-- Expected crystallized state after the two cycles triggered by
`blockW`. -/
def csOut : CrystallizedState :=
  ⟨[⟨0, 0, 0, 2⟩], 3, [[⟨0, [0]⟩], [⟨0, [0]⟩]], 1, 2, 0, 1, [⟨1, 2, 11⟩], 0, 0⟩

/-- Expected active state after the two cycles triggered by `blockW`. -/
def asOut : ActiveState := ⟨[], [9, 9], cacheW, ⟨some blockW, [genesisW, blockW]⟩⟩

/-- A block at slot 1 with no attestations, rejected by the proposer
rule. -/
def blockE : Block := ⟨3, 1, [], 50⟩

/-- Crystallized-state projection of a transition result, used to state
closed facts about concrete runs. -/
def cs_of (r : Option (Except String (CrystallizedState × ActiveState))) :
    Option CrystallizedState :=
  match r with
  | some (Except.ok p) => some p.1
  | _ => none

/-- True when the validation of one attestation raised an error. -/
def failed (r : Except String Unit) : Bool :=
  match r with
  | Except.error _ => true
  | Except.ok _ => false

/-- Modelled from the spec, following the wording of the
justification/finality rule: for each `i` in `[0, cycle_length)` with
`slot = last_state_recalc - cycle_length + i` and `block_hash =
recent_block_hashes[i]`, `vote_balance` is the cached
`total_voter_deposits` when the hash is in the cache and 0 otherwise;
if `3 * vote_balance >= 2 * total_deposits` then `last_justified_slot`
becomes `max(last_justified_slot, slot)` and the streak grows by one,
otherwise the streak resets to 0; whenever the streak reaches
`cycle_length + 1` the finalized slot becomes
`max(last_finalized_slot, slot - cycle_length - 1)`. -/
def ffg_spec_counters (td : Int) (cl lsr : Nat) (rbh : List Nat)
    (cache : Nat → Option VoteRecord) (init : Int × Nat × Int) : Nat → Int × Nat × Int
  | 0 => init
  | i + 1 =>
    let prev := ffg_spec_counters td cl lsr rbh cache init i
    let slot : Int := (lsr : Int) - (cl : Int) + (i : Int)
    let block_hash := rbh.getD i 0
    let vote_balance : Int :=
      if (cache block_hash).isSome then ((cache block_hash).getD ⟨[], 0⟩).total_voter_deposits
      else 0
    let last_justified := if 2 * td ≤ 3 * vote_balance then max prev.1 slot else prev.1
    let streak := if 2 * td ≤ 3 * vote_balance then prev.2.1 + 1 else 0
    let last_finalized :=
      if cl + 1 ≤ streak then max prev.2.2 (slot - (cl : Int) - 1) else prev.2.2
    (last_justified, streak, last_finalized)

/-- Accumulated voted balance of the attestation group of shard `s`
across the pending attestations. -/
def group_balance (cSt : CrystallizedState) (pending : List AttestationRecord)
    (s : Nat) (cfg : Config) : Int :=
  ((pending.filter (fun a => a.shard_id == s)).map
    (fun a => att_voted_balance cSt a cfg)).sum

/-! Helper lemmas. -/

theorem foldl_inv {α β : Type} (P : β → Prop) (step : β → α → β) (l : List α) (init : β)
    (h0 : P init) (hs : ∀ b a, P b → P (step b a)) : P (l.foldl step init) := by
  induction l generalizing init with
  | nil => exact h0
  | cons a t ih => exact ih _ (hs _ _ h0)

theorem list_modify_length (l : List α) (i : Nat) (f : α → α) :
    (list_modify l i f).length = l.length := by
  induction l generalizing i with
  | nil => rfl
  | cons a t ih =>
    cases i with
    | zero => rfl
    | succ n => simpa [list_modify] using ih n

theorem list_modify_get?_self (l : List α) (i : Nat) (f : α → α) :
    (list_modify l i f).get? i = (l.get? i).map f := by
  induction l generalizing i with
  | nil => rfl
  | cons a t ih =>
    cases i with
    | zero => rfl
    | succ n => simpa [list_modify] using ih n

theorem list_modify_get?_other (l : List α) {i j : Nat} (f : α → α) (hij : i ≠ j) :
    (list_modify l i f).get? j = l.get? j := by
  induction l generalizing i j with
  | nil => rfl
  | cons a t ih =>
    cases i with
    | zero => cases j with
      | zero => exact absurd rfl hij
      | succ m => rfl
    | succ n => cases j with
      | zero => rfl
      | succ m => simpa [list_modify] using ih (fun hh => hij (by omega))

theorem foldl_modify_get? (g : Nat → α → α) (idxs : List Nat) (hnd : idxs.Nodup)
    (init : List α) (j : Nat) :
    (idxs.foldl (fun vs i => list_modify vs i (g i)) init).get? j =
      if j ∈ idxs then (init.get? j).map (g j) else init.get? j := by
  induction idxs generalizing init with
  | nil => simp
  | cons i t ih =>
    have hnd' : t.Nodup := (List.nodup_cons.mp hnd).2
    simp only [List.foldl_cons]
    rcases eq_or_ne j i with rfl | hne
    · have hj : j ∉ t := (List.nodup_cons.mp hnd).1
      rw [ih hnd', if_neg hj, if_pos (List.mem_cons_self j t)]
      exact list_modify_get?_self _ _ _
    · rw [ih hnd']
      by_cases hjt : j ∈ t
      · rw [if_pos hjt, if_pos (List.mem_cons_of_mem _ hjt),
          list_modify_get?_other _ _ (fun hh => hne hh.symm)]
      · rw [if_neg hjt, if_neg (by simp [List.mem_cons, hne, hjt]),
          list_modify_get?_other _ _ (fun hh => hne hh.symm)]

theorem active_indices_nodup (d : Nat) (vs : List ValidatorRecord) :
    (get_active_validator_indices d vs).Nodup :=
  (List.nodup_range vs.length).filter _

theorem mem_active_indices_lt {d : Nat} {vs : List ValidatorRecord} {i : Nat}
    (h : i ∈ get_active_validator_indices d vs) : i < vs.length := by
  have := List.mem_filter.mp h
  exact List.mem_range.mp this.1

/-- Successful runs of `initialize_new_cycle` are fully determined by
the successful reward application. -/
theorem initialize_new_cycle_some {cSt : CrystallizedState} {aSt : ActiveState}
    {block : Block} {cfg : Config} {p : CrystallizedState × ActiveState}
    (h : initialize_new_cycle cSt aSt block cfg = some p) :
    ∃ validators, apply_rewards_and_penalties cSt aSt block cfg = some validators ∧
      p = (⟨validators, cSt.last_state_recalc + cfg.cycle_length,
        cSt.shard_and_committee_for_slots.drop cfg.cycle_length ++
          cSt.shard_and_committee_for_slots.drop cfg.cycle_length,
        (justification_loop (total_deposits cSt) cfg.cycle_length cSt.last_state_recalc
          aSt.recent_block_hashes aSt.block_vote_cache
          (cSt.last_justified_slot, cSt.justified_streak, cSt.last_finalized_slot)).1,
        (justification_loop (total_deposits cSt) cfg.cycle_length cSt.last_state_recalc
          aSt.recent_block_hashes aSt.block_vote_cache
          (cSt.last_justified_slot, cSt.justified_streak, cSt.last_finalized_slot)).2.1,
        (justification_loop (total_deposits cSt) cfg.cycle_length cSt.last_state_recalc
          aSt.recent_block_hashes aSt.block_vote_cache
          (cSt.last_justified_slot, cSt.justified_streak, cSt.last_finalized_slot)).2.2,
        cSt.current_dynasty, process_updated_crosslinks cSt aSt cfg,
        cSt.dynasty_seed, cSt.dynasty_start⟩,
        ⟨aSt.pending_attestations.filter (fun a => cSt.last_state_recalc ≤ a.slot),
          aSt.recent_block_hashes, aSt.block_vote_cache, aSt.chain⟩) := by
  unfold initialize_new_cycle at h
  cases happly : apply_rewards_and_penalties cSt aSt block cfg with
  | none => rw [happly] at h; simp at h
  | some vs =>
    rw [happly] at h
    simp only [] at h
    exact ⟨vs, rfl, (Option.some.inj h).symm⟩

theorem justification_loop_mono (td : Int) (cl lsr : Nat) (rbh : List Nat)
    (cache : Nat → Option VoteRecord) (init : Int × Nat × Int) :
    init.1 ≤ (justification_loop td cl lsr rbh cache init).1 ∧
    init.2.2 ≤ (justification_loop td cl lsr rbh cache init).2.2 := by
  unfold justification_loop
  refine foldl_inv (fun b : Int × Nat × Int => init.1 ≤ b.1 ∧ init.2.2 ≤ b.2.2) _ _ _
    ⟨le_refl _, le_refl _⟩ ?_
  intro b a hb
  by_cases h1 : 2 * td ≤ 3 * vote_balance_of cache (rbh.getD a 0)
  · simp only [justification_step, if_pos h1]
    by_cases h2 : cl + 1 ≤ b.2.1 + 1
    · simp only [if_pos h2]
      exact ⟨le_trans hb.1 (le_max_left _ _), le_trans hb.2 (le_max_left _ _)⟩
    · simp only [if_neg h2]
      exact ⟨le_trans hb.1 (le_max_left _ _), hb.2⟩
  · simp only [justification_step, if_neg h1]
    rw [if_neg (by omega)]
    exact hb

theorem initialize_mono {cSt : CrystallizedState} {aSt : ActiveState}
    {block : Block} {cfg : Config} {p : CrystallizedState × ActiveState}
    (h : initialize_new_cycle cSt aSt block cfg = some p) :
    cSt.last_justified_slot ≤ p.1.last_justified_slot ∧
    cSt.last_finalized_slot ≤ p.1.last_finalized_slot ∧
    p.1.last_state_recalc = cSt.last_state_recalc + cfg.cycle_length := by
  obtain ⟨vs, -, hp⟩ := initialize_new_cycle_some h
  have hm := justification_loop_mono (total_deposits cSt) cfg.cycle_length
    cSt.last_state_recalc aSt.recent_block_hashes aSt.block_vote_cache
    (cSt.last_justified_slot, cSt.justified_streak, cSt.last_finalized_slot)
  rw [hp]
  exact ⟨hm.1, hm.2, rfl⟩

theorem dynasty_transition_preserves (O : Oracles) (cSt : CrystallizedState)
    (block : Block) (cfg : Config) :
    (compute_dynasty_transition O cSt block cfg).last_state_recalc = cSt.last_state_recalc ∧
    (compute_dynasty_transition O cSt block cfg).last_justified_slot =
      cSt.last_justified_slot ∧
    (compute_dynasty_transition O cSt block cfg).last_finalized_slot =
      cSt.last_finalized_slot :=
  ⟨rfl, rfl, rfl⟩

/-- C1 counterexample input facts: the code keeps a pending attestation
whose slot lies in `[last_state_recalc, last_state_recalc +
cycle_length)`, which the claim says must be pruned. -/
theorem C1_counterexample_kept_attestation :
    (initialize_new_cycle csA asB blockA cfg1).map
        (fun p => p.2.pending_attestations) = some [attP] ∧
    asB.pending_attestations.filter
      (fun a => decide (csA.last_state_recalc + cfg1.cycle_length ≤ a.slot)) = [] :=
  ⟨by decide, by decide⟩

/-- C1 (amended): `initialize_new_cycle` returns an active state whose
pending attestations are exactly the input pending attestations with
slot at least the OLD `last_state_recalc` (not the new recalc point),
and a crystallized state whose `last_state_recalc` equals the input
value plus `cycle_length`. -/
theorem C1_pending_pruned_at_old_recalc {cSt : CrystallizedState} {aSt : ActiveState}
    {block : Block} {cfg : Config} {p : CrystallizedState × ActiveState}
    (h : initialize_new_cycle cSt aSt block cfg = some p) :
    p.2.pending_attestations =
      aSt.pending_attestations.filter (fun a => cSt.last_state_recalc ≤ a.slot) ∧
    p.1.last_state_recalc = cSt.last_state_recalc + cfg.cycle_length := by
  obtain ⟨vs, -, hp⟩ := initialize_new_cycle_some h
  rw [hp]
  exact ⟨rfl, rfl⟩

theorem C1_witness :
    (initialize_new_cycle csA asB blockA cfg1).map
        (fun p => (p.2.pending_attestations, p.1.last_state_recalc)) =
      some (asB.pending_attestations.filter (fun a => csA.last_state_recalc ≤ a.slot),
        csA.last_state_recalc + cfg1.cycle_length) := by
  have hs : (initialize_new_cycle csA asB blockA cfg1).isSome = true := by decide
  obtain ⟨p, hp⟩ := Option.isSome_iff_exists.mp hs
  obtain ⟨h1, h2⟩ := C1_pending_pruned_at_old_recalc hp
  rw [hp, Option.map_some', h1, h2]

/-- C7: if `block.slot_number < last_state_recalc + cycle_length`, the
cycle loop does not run and returns both states unchanged. -/
theorem C7_no_cycle_below_boundary (O : Oracles) (fuel : Nat) (cSt : CrystallizedState)
    (aSt : ActiveState) (block : Block) (cfg : Config)
    (h : block.slot_number < cSt.last_state_recalc + cfg.cycle_length) :
    compute_cycle_transitions O fuel cSt aSt block cfg = some (Except.ok (cSt, aSt)) := by
  cases fuel with
  | zero => unfold compute_cycle_transitions; rw [if_neg (by omega)]
  | succ fuel' => unfold compute_cycle_transitions; rw [if_neg (by omega)]

theorem C7_witness :
    compute_cycle_transitions O0 5 csA asA blockA cfg1 = some (Except.ok (csA, asA)) :=
  C7_no_cycle_below_boundary O0 5 csA asA blockA cfg1 (by decide)

theorem compute_cycle_transitions_total (O : Oracles) (block : Block) (cfg : Config)
    (hcl : 1 ≤ cfg.cycle_length) :
    ∀ (fuel : Nat) (cSt : CrystallizedState) (aSt : ActiveState),
      block.slot_number + 1 ≤ cSt.last_state_recalc + fuel →
      compute_cycle_transitions O fuel cSt aSt block cfg ≠ none := by
  intro fuel
  induction fuel with
  | zero =>
    intro cSt aSt hle
    unfold compute_cycle_transitions
    rw [if_neg (by omega)]
    simp
  | succ fuel' ih =>
    intro cSt aSt hle
    unfold compute_cycle_transitions
    by_cases hg : cSt.last_state_recalc + cfg.cycle_length ≤ block.slot_number
    · rw [if_pos hg]
      cases hinit : initialize_new_cycle cSt aSt block cfg with
      | none => simp
      | some p =>
        have hlsr : p.1.last_state_recalc = cSt.last_state_recalc + cfg.cycle_length :=
          (initialize_mono hinit).2.2
        dsimp only
        by_cases hrd : ready_for_dynasty_transition p.1 block cfg
        · rw [if_pos hrd]
          exact ih (compute_dynasty_transition O p.1 block cfg) p.2 (by
            have := (dynasty_transition_preserves O p.1 block cfg).1
            omega)
        · rw [if_neg hrd]
          exact ih p.1 p.2 (by omega)
    · rw [if_neg hg]
      simp

/-- C10: with `cycle_length >= 1` the while loop of
`compute_cycle_transitions` terminates: fuel `block.slot_number + 1`
(the fuel used by the driver) is never exhausted, because every
iteration advances `last_state_recalc` by `cycle_length >= 1` and the
guard requires `last_state_recalc + cycle_length <= block.slot_number`. -/
theorem C10_cycle_loop_terminates (O : Oracles) (cSt : CrystallizedState)
    (aSt : ActiveState) (block : Block) (cfg : Config) (hcl : 1 ≤ cfg.cycle_length) :
    compute_cycle_transitions O (block.slot_number + 1) cSt aSt block cfg ≠ none :=
  compute_cycle_transitions_total O block cfg hcl _ cSt aSt (by omega)

theorem C10_witness :
    compute_cycle_transitions O0 (blockA.slot_number + 1) csA asA blockA cfg1 ≠ none :=
  C10_cycle_loop_terminates O0 csA asA blockA cfg1 (by decide)

theorem vote_balance_of_eq (cache : Nat → Option VoteRecord) (h : Nat) :
    vote_balance_of cache h =
      if (cache h).isSome then ((cache h).getD ⟨[], 0⟩).total_voter_deposits else 0 := by
  unfold vote_balance_of
  cases cache h <;> simp

theorem justification_step_spec (td : Int) (cl lsr : Nat) (rbh : List Nat)
    (cache : Nat → Option VoteRecord) (st : Int × Nat × Int) (i : Nat) :
    justification_step td cl lsr rbh cache st i =
      (let slot : Int := (lsr : Int) - (cl : Int) + (i : Int)
       let block_hash := rbh.getD i 0
       let vb : Int :=
         if (cache block_hash).isSome then ((cache block_hash).getD ⟨[], 0⟩).total_voter_deposits
         else 0
       let lj := if 2 * td ≤ 3 * vb then max st.1 slot else st.1
       let sk := if 2 * td ≤ 3 * vb then st.2.1 + 1 else 0
       let lf := if cl + 1 ≤ sk then max st.2.2 (slot - (cl : Int) - 1) else st.2.2
       (lj, sk, lf)) := by
  unfold justification_step
  rw [vote_balance_of_eq]
  dsimp only
  have hslot : ((i : Int) + ((lsr : Int) - (cl : Int))) = ((lsr : Int) - (cl : Int) + (i : Int)) := by
    ring
  rw [hslot]
  by_cases h1 : 2 * td ≤ 3 *
      (if (cache (rbh.getD i 0)).isSome
        then ((cache (rbh.getD i 0)).getD ⟨[], 0⟩).total_voter_deposits else 0)
  · simp only [if_pos h1]
    by_cases h2 : cl + 1 ≤ st.2.1 + 1 <;> simp [h2]
  · simp only [if_neg h1]
    rw [if_neg (by omega), if_neg (by omega)]

theorem justification_foldl_eq_spec (td : Int) (cl lsr : Nat) (rbh : List Nat)
    (cache : Nat → Option VoteRecord) (init : Int × Nat × Int) (n : Nat) :
    (List.range n).foldl (justification_step td cl lsr rbh cache) init =
      ffg_spec_counters td cl lsr rbh cache init n := by
  induction n with
  | zero => rfl
  | succ m ih =>
    rw [List.range_succ, List.foldl_append, List.foldl_cons, List.foldl_nil, ih,
      justification_step_spec]
    rfl

/-- C2: the three justification/finality counters of the crystallized
state produced by `initialize_new_cycle` are exactly the recurrence
stated by the spec: per slot, the guarded vote balance, the 2/3
justification test updating `last_justified_slot` and the streak, and
the `cycle_length + 1` streak test updating `last_finalized_slot`. -/
theorem C2_justification_counters {cSt : CrystallizedState} {aSt : ActiveState}
    {block : Block} {cfg : Config} {p : CrystallizedState × ActiveState}
    (h : initialize_new_cycle cSt aSt block cfg = some p) :
    (p.1.last_justified_slot, p.1.justified_streak, p.1.last_finalized_slot) =
      ffg_spec_counters (total_deposits cSt) cfg.cycle_length cSt.last_state_recalc
        aSt.recent_block_hashes aSt.block_vote_cache
        (cSt.last_justified_slot, cSt.justified_streak, cSt.last_finalized_slot)
        cfg.cycle_length := by
  obtain ⟨vs, -, hp⟩ := initialize_new_cycle_some h
  rw [hp]
  exact justification_foldl_eq_spec _ _ _ _ _ _ _

theorem C2_witness :
    (initialize_new_cycle csA asA blockA cfg1).map
        (fun p => (p.1.last_justified_slot, p.1.justified_streak, p.1.last_finalized_slot)) =
      some (ffg_spec_counters (total_deposits csA) cfg1.cycle_length csA.last_state_recalc
        asA.recent_block_hashes asA.block_vote_cache
        (csA.last_justified_slot, csA.justified_streak, csA.last_finalized_slot)
        cfg1.cycle_length) := by
  have hs : (initialize_new_cycle csA asA blockA cfg1).isSome = true := by decide
  obtain ⟨p, hp⟩ := Option.isSome_iff_exists.mp hs
  rw [hp, Option.map_some', C2_justification_counters hp]

theorem cycle_transitions_mono (O : Oracles) (block : Block) (cfg : Config) :
    ∀ (fuel : Nat) (cSt : CrystallizedState) (aSt : ActiveState)
      (p : CrystallizedState × ActiveState),
      compute_cycle_transitions O fuel cSt aSt block cfg = some (Except.ok p) →
      cSt.last_justified_slot ≤ p.1.last_justified_slot ∧
      cSt.last_finalized_slot ≤ p.1.last_finalized_slot := by
  intro fuel
  induction fuel with
  | zero =>
    intro cSt aSt p h
    unfold compute_cycle_transitions at h
    by_cases hg : cSt.last_state_recalc + cfg.cycle_length ≤ block.slot_number
    · rw [if_pos hg] at h; exact absurd h (by simp)
    · rw [if_neg hg] at h
      obtain rfl : (cSt, aSt) = p := Except.ok.inj (Option.some.inj h)
      exact ⟨le_refl _, le_refl _⟩
  | succ fuel' ih =>
    intro cSt aSt p h
    unfold compute_cycle_transitions at h
    by_cases hg : cSt.last_state_recalc + cfg.cycle_length ≤ block.slot_number
    · rw [if_pos hg] at h
      cases hinit : initialize_new_cycle cSt aSt block cfg with
      | none => rw [hinit] at h; simp at h
      | some q =>
        rw [hinit] at h
        dsimp only at h
        have h1 := initialize_mono hinit
        by_cases hrd : ready_for_dynasty_transition q.1 block cfg
        · rw [if_pos hrd] at h
          have h2 := ih _ q.2 p h
          have h3 := dynasty_transition_preserves O q.1 block cfg
          refine ⟨le_trans h1.1 ?_, le_trans h1.2.1 ?_⟩
          · rw [← h3.2.1]; exact h2.1
          · rw [← h3.2.2]; exact h2.2
        · rw [if_neg hrd] at h
          exact ⟨le_trans h1.1 (ih _ q.2 p h).1, le_trans h1.2.1 (ih _ q.2 p h).2⟩
    · rw [if_neg hg] at h
      obtain rfl : (cSt, aSt) = p := Except.ok.inj (Option.some.inj h)
      exact ⟨le_refl _, le_refl _⟩

/-- C5: across every successful `compute_state_transition`, both
`last_finalized_slot` and `last_justified_slot` are monotone
non-decreasing. -/
theorem C5_finality_monotone (O : Oracles) (parent : CrystallizedState × ActiveState)
    (parent_block block : Block) (cfg : Config) (p : CrystallizedState × ActiveState)
    (h : compute_state_transition O parent parent_block block cfg = some (Except.ok p)) :
    parent.1.last_finalized_slot ≤ p.1.last_finalized_slot ∧
    parent.1.last_justified_slot ≤ p.1.last_justified_slot := by
  simp only [compute_state_transition] at h
  cases hpb : process_block O parent.1
      (fill_recent_block_hashes parent.2 parent_block block) block parent_block cfg with
  | error e => rw [hpb] at h; simp at h
  | ok aSt2 =>
    rw [hpb] at h
    dsimp only at h
    have hm := cycle_transitions_mono O block cfg _ parent.1 aSt2 p h
    exact ⟨hm.2, hm.1⟩

set_option maxRecDepth 8000 in
theorem C5_witness :
    csW.last_finalized_slot ≤ csOut.last_finalized_slot ∧
    csW.last_justified_slot ≤ csOut.last_justified_slot := by
  have h1 : (compute_state_transition O0 (csW, asW) parentW blockW cfg1).isSome = true := by
    decide
  have h2 : rejects (compute_state_transition O0 (csW, asW) parentW blockW cfg1) = false := by
    decide
  have h3 : cs_of (compute_state_transition O0 (csW, asW) parentW blockW cfg1) =
      some csOut := by decide
  cases hr : compute_state_transition O0 (csW, asW) parentW blockW cfg1 with
  | none => rw [hr] at h1; simp at h1
  | some r =>
    cases r with
    | error e => rw [hr] at h2; simp [rejects] at h2
    | ok p =>
      have hcs : p.1 = csOut := by
        rw [hr] at h3
        simpa [cs_of] using h3
      have hm := C5_finality_monotone O0 (csW, asW) parentW blockW cfg1 p hr
      rw [hcs] at hm
      exact hm

/-- C8: the committee schedule keeps length `2 * cycle_length`: the
cycle engine rebuilds it as two copies of its second half, and the
dynasty engine replaces everything from `cycle_length` on with the
shuffler output, whose oracle contract fixes its length to
`cycle_length`. -/
theorem C8_schedule_length_invariant (O : Oracles) (cSt : CrystallizedState)
    (aSt : ActiveState) (block : Block) (cfg : Config)
    (p : CrystallizedState × ActiveState) :
    (cSt.shard_and_committee_for_slots.length = 2 * cfg.cycle_length →
      initialize_new_cycle cSt aSt block cfg = some p →
      p.1.shard_and_committee_for_slots.length = 2 * cfg.cycle_length) ∧
    ((∀ s v d st, (O.shuffler s v d st).length = cfg.cycle_length) →
      cSt.shard_and_committee_for_slots.length = 2 * cfg.cycle_length →
      (compute_dynasty_transition O cSt block cfg).shard_and_committee_for_slots.length =
        2 * cfg.cycle_length) := by
  constructor
  · intro hlen h
    obtain ⟨vs, -, hp⟩ := initialize_new_cycle_some h
    rw [hp]
    dsimp only
    rw [List.length_append, List.length_drop, hlen]
    omega
  · intro hsh hlen
    simp only [compute_dynasty_transition]
    rw [List.length_append, List.length_take, hsh, hlen]
    omega

theorem C8_witness :
    ((initialize_new_cycle csA asA blockA cfg1).map
        (fun p => p.1.shard_and_committee_for_slots.length) =
      some (2 * cfg1.cycle_length)) ∧
    (compute_dynasty_transition O0 csA blockA cfg1).shard_and_committee_for_slots.length =
      2 * cfg1.cycle_length := by
  constructor
  · have hs : (initialize_new_cycle csA asA blockA cfg1).isSome = true := by decide
    obtain ⟨p, hp⟩ := Option.isSome_iff_exists.mp hs
    rw [hp, Option.map_some',
      (C8_schedule_length_invariant O0 csA asA blockA cfg1 p).1 (by decide) hp]
  · exact (C8_schedule_length_invariant O0 csA asA blockA cfg1 (csA, asA)).2
      (fun s v d st => rfl) (by decide)

theorem foldlM_option_isSome {α β : Type} (step : β → α → Option β) :
    ∀ l : List α, (∀ a ∈ l, ∀ b, (step b a).isSome = true) →
      ∀ init : β, (l.foldlM step init).isSome = true := by
  intro l
  induction l with
  | nil => intro _ init; rfl
  | cons a t ih =>
    intro h init
    cases hs : step init a with
    | none =>
      have h1 := h a (List.mem_cons_self a t) init
      rw [hs] at h1
      simp at h1
    | some b =>
      have heq : List.foldlM step init (a :: t) = List.foldlM step b t := by
        rw [List.foldlM_cons, hs]
        rfl
      rw [heq]
      exact ih (fun x hx bb => h x (List.mem_cons_of_mem _ hx) bb) b

theorem pydiv_isSome {a b : Int} (hb : b ≠ 0) : (pydiv a b).isSome = true := by
  simp [pydiv, hb]

theorem get_reward_context_pos {td : Int} {cfg : Config} {rq : Int} {qpq : Nat}
    (h : get_reward_context td cfg = some (rq, qpq)) : 0 < td := by
  unfold get_reward_context at h
  split at h
  next hc => exact hc.1
  next => simp at h

theorem ffg_apply_isSome (vs : List ValidatorRecord) (active_ids : List Nat)
    (tsf td rq : Int) (qpq cl : Nat) (tpd : Int) (voters : List Nat)
    (rewards : List Int) (hrq : rq ≠ 0) (htd : td ≠ 0) (hqpq : (qpq : Int) ≠ 0) :
    (ffg_apply vs active_ids tsf td rq qpq cl tpd voters rewards).isSome = true := by
  unfold ffg_apply
  dsimp only
  split
  · have hs1 := foldlM_option_isSome (fun rw i =>
      (pydiv (balance_at vs i) rq).bind (fun q1 =>
        (pydiv (q1 * (2 * tpd - td)) td).map (fun q2 => add_reward rw i q2)))
      (active_ids.filter (fun i => voters.contains i))
      (fun a ha b => by simp [pydiv, hrq, htd]) rewards
    obtain ⟨r1, hr1⟩ := Option.isSome_iff_exists.mp hs1
    rw [hr1]
    exact foldlM_option_isSome _ _ (fun a ha b => by simp [pydiv, hrq]) _
  · exact foldlM_option_isSome _ _ (fun a ha b => by simp [pydiv, hrq, hqpq]) _

/-- C9: the FFG reward loop reads `block_vote_cache[block.hash]` with no
presence check.  Under the reward context succeeding with nonzero
quotients (so no division is a `ZeroDivisionError`), the loop is total
exactly when every block found at a slot of the reward window has a
cache entry; it fails (`KeyError`, modelled by `none`) on a concrete
input violating the cache precondition while satisfying the others;
and, in contrast, the guarded lookup used by the justification loop of
`initialize_new_cycle` defaults to 0. -/
theorem C9_ffg_cache_lookup_unguarded :
    (∀ (cSt : CrystallizedState) (aSt : ActiveState) (block : Block) (cfg : Config)
      (rq : Int) (qpq : Nat),
      get_reward_context (total_deposits cSt) cfg = some (rq, qpq) →
      0 < rq → 0 < qpq →
      (∀ slot ∈ slot_range cSt.last_state_recalc cfg.cycle_length,
        (aSt.chain.get_block_by_slot_number slot).all
          (fun b => (aSt.block_vote_cache b.hash).isSome) = true) →
      (calculate_ffg_rewards cSt aSt block cfg).isSome = true) ∧
    calculate_ffg_rewards csBad asBad blockA cfg1 = none ∧
    (∀ (cache : Nat → Option VoteRecord) (h : Nat),
      cache h = none → vote_balance_of cache h = 0) := by
  refine ⟨?_, by decide, ?_⟩
  · intro cSt aSt block cfg rq qpq hrc hrq hqpq hcache
    have htd : 0 < total_deposits cSt := get_reward_context_pos hrc
    simp only [calculate_ffg_rewards, hrc]
    refine foldlM_option_isSome _ _ ?_ _
    intro slot hslot rewards
    have hc := hcache slot hslot
    unfold ffg_slot_step
    cases hb : aSt.chain.get_block_by_slot_number slot with
    | none =>
      exact ffg_apply_isSome _ _ _ _ _ _ _ _ _ _ (by omega) (by omega) (by
        simp only [ne_eq, Int.natCast_eq_zero]
        omega)
    | some b =>
      dsimp only
      simp only [Option.all, hb] at hc
      cases hcb : aSt.block_vote_cache b.hash with
      | none => rw [hcb] at hc; simp at hc
      | some vr =>
        exact ffg_apply_isSome _ _ _ _ _ _ _ _ _ _ (by omega) (by omega) (by
          simp only [ne_eq, Int.natCast_eq_zero]
          omega)
  · intro cache h hnone
    unfold vote_balance_of
    rw [hnone]

theorem C9_witness :
    get_reward_context (total_deposits csE) cfg1 = some (1, 1) ∧
    (calculate_ffg_rewards csE asA blockA cfg1).isSome = true :=
  ⟨by decide, C9_ffg_cache_lookup_unguarded.1 csE asA blockA cfg1 1 1 (by decide)
    (by decide) (by decide) (by decide)⟩

theorem processing_fold_error (O : Oracles) (cSt : CrystallizedState) (aSt : ActiveState)
    (block parent_block : Block) (cfg : Config) :
    ∀ (l : List AttestationRecord) (cache : Nat → Option VoteRecord),
      (∃ a ∈ l, failed (validate_attestation O cSt aSt a block parent_block cfg) = true) →
      ∃ e, l.foldlM (fun cache att =>
        match validate_attestation O cSt aSt att block parent_block cfg with
        | Except.error e => Except.error e
        | Except.ok _ =>
          Except.ok (get_updated_block_vote_cache O cSt aSt att block cache cfg))
        cache = Except.error e := by
  intro l
  induction l with
  | nil =>
    intro cache h
    obtain ⟨a, ha, -⟩ := h
    exact absurd ha (List.not_mem_nil a)
  | cons a t ih =>
    intro cache h
    cases hv : validate_attestation O cSt aSt a block parent_block cfg with
    | error e =>
      refine ⟨e, ?_⟩
      rw [List.foldlM_cons]
      simp only [hv]
      rfl
    | ok u =>
      obtain ⟨b, hb, hfail⟩ := h
      have hbt : b ∈ t := by
        cases List.mem_cons.mp hb with
        | inl heq =>
          rw [heq, hv] at hfail
          exact absurd hfail (by simp [failed])
        | inr h2 => exact h2
      obtain ⟨e, he⟩ :=
        ih (get_updated_block_vote_cache O cSt aSt a block cache cfg) ⟨b, hbt, hfail⟩
      refine ⟨e, ?_⟩
      rw [List.foldlM_cons]
      simp only [hv]
      exact he

/-- C6: if any attestation of the block fails validation (checks of the
attestation validator, evaluated against the state with the refreshed
hash window), or the block has a positive slot with an empty
attestation list or a first attestation that is not the proposer
attestation, then `compute_state_transition` returns a validation
error.  The embedding is a pure function, so the parent pair is
returned to the caller untouched and no partially updated state
exists. -/
theorem C6_rejection_is_total (O : Oracles) (cSt : CrystallizedState) (aSt : ActiveState)
    (parent_block block : Block) (cfg : Config)
    (h : (∃ a ∈ block.attestations,
        failed (validate_attestation O cSt (fill_recent_block_hashes aSt parent_block block)
          a block parent_block cfg) = true) ∨
      (0 < block.slot_number ∧ (block.attestations = [] ∨
        ∀ a, block.attestations.head? = some a →
          proposer_attestation_ok cSt parent_block a cfg = false))) :
    rejects (compute_state_transition O (cSt, aSt) parent_block block cfg) = true := by
  have hpb : ∃ e, process_block O cSt (fill_recent_block_hashes aSt parent_block block)
      block parent_block cfg = Except.error e := by
    cases hvp : validate_parent_block_proposer block parent_block cSt cfg with
    | error e =>
      refine ⟨e, ?_⟩
      unfold process_block
      rw [hvp]
    | ok u =>
      cases h with
      | inl hatt =>
        obtain ⟨e, he⟩ := processing_fold_error O cSt
          (fill_recent_block_hashes aSt parent_block block) block parent_block cfg
          block.attestations (fill_recent_block_hashes aSt parent_block block).block_vote_cache
          hatt
        refine ⟨e, ?_⟩
        unfold process_block
        rw [hvp]
        dsimp only
        rw [he]
      | inr hpr =>
        exfalso
        obtain ⟨hslot, hcase⟩ := hpr
        unfold validate_parent_block_proposer at hvp
        rw [if_neg (by omega)] at hvp
        cases hatts : block.attestations with
        | nil => rw [hatts] at hvp; simp at hvp
        | cons a t =>
          cases hcase with
          | inl h0 => rw [hatts] at h0; exact List.cons_ne_nil a t h0
          | inr hok =>
            have hfalse := hok a (by rw [hatts]; rfl)
            rw [hatts] at hvp
            dsimp only at hvp
            rw [hfalse] at hvp
            simp at hvp
  obtain ⟨e, he⟩ := hpb
  simp only [compute_state_transition]
  rw [he]
  rfl

theorem C6_witness :
    rejects (compute_state_transition O0 (csA, asA) genesisW blockE cfg1) = true :=
  C6_rejection_is_total O0 csA asA genesisW blockE cfg1 (Or.inr ⟨by decide, Or.inl rfl⟩)

theorem if_neg_clamp_eq_max (b : Int) : (if b < 0 then 0 else b) = max 0 b := by
  rcases lt_or_ge b 0 with hb | hb
  · rw [if_pos hb, max_eq_left (le_of_lt hb)]
  · rw [if_neg (not_lt.mpr hb), max_eq_right hb]

/-- C4: `apply_rewards_and_penalties` sets every active validator
balance to `max(0, balance + ffg delta + crosslink delta)`, passes
inactive validators through unchanged, and (given non-negative input
balances) returns only non-negative balances. -/
theorem C4_reward_application {cSt : CrystallizedState} {aSt : ActiveState} {block : Block}
    {cfg : Config} {vs2 : List ValidatorRecord} {ffg cross : List Int}
    (hnn : ∀ v ∈ cSt.validators, 0 ≤ v.balance)
    (hffg : calculate_ffg_rewards cSt aSt block cfg = some ffg)
    (hcross : calculate_crosslink_rewards cSt aSt block cfg = some cross)
    (happ : apply_rewards_and_penalties cSt aSt block cfg = some vs2) :
    vs2.length = cSt.validators.length ∧
    ∀ i, i < cSt.validators.length →
      (i ∈ get_active_validator_indices cSt.current_dynasty cSt.validators →
        vs2.get? i = (cSt.validators.get? i).map (fun v =>
          { v with balance := max 0 (v.balance + ffg.getD i 0 + cross.getD i 0) })) ∧
      (i ∉ get_active_validator_indices cSt.current_dynasty cSt.validators →
        vs2.get? i = cSt.validators.get? i) ∧
      (∀ v2, vs2.get? i = some v2 → 0 ≤ v2.balance) := by
  simp only [apply_rewards_and_penalties, hffg, hcross] at happ
  have hvs : (get_active_validator_indices cSt.current_dynasty cSt.validators).foldl
      (fun vs i => list_modify vs i (fun v =>
        let b := v.balance + ffg.getD i 0 + cross.getD i 0
        { v with balance := if b < 0 then 0 else b })) cSt.validators = vs2 :=
    Option.some.inj happ
  have hget : ∀ j, vs2.get? j =
      if j ∈ get_active_validator_indices cSt.current_dynasty cSt.validators then
        (cSt.validators.get? j).map (fun v =>
          let b := v.balance + ffg.getD j 0 + cross.getD j 0
          { v with balance := if b < 0 then 0 else b })
      else cSt.validators.get? j := by
    intro j
    rw [← hvs]
    exact foldl_modify_get? _ _ (active_indices_nodup _ _) _ j
  constructor
  · rw [← hvs]
    exact foldl_inv (fun vs : List ValidatorRecord => vs.length = cSt.validators.length)
      _ _ _ rfl (fun b a hb => by simpa [list_modify_length] using hb)
  · intro i hi
    refine ⟨?_, ?_, ?_⟩
    · intro hmem
      rw [hget i, if_pos hmem]
      cases hv : cSt.validators.get? i with
      | none => rfl
      | some v => simp only [Option.map_some']; rw [if_neg_clamp_eq_max]
    · intro hmem
      rw [hget i, if_neg hmem]
    · intro v2 hv2
      rw [hget i] at hv2
      by_cases hmem : i ∈ get_active_validator_indices cSt.current_dynasty cSt.validators
      · rw [if_pos hmem] at hv2
        cases hv : cSt.validators.get? i with
        | none => rw [hv] at hv2; simp at hv2
        | some v =>
          rw [hv] at hv2
          simp only [Option.map_some', Option.some.injEq] at hv2
          rw [← hv2]
          dsimp only
          rw [if_neg_clamp_eq_max]
          exact le_max_left _ _
      · rw [if_neg hmem] at hv2
        exact hnn v2 (List.get?_mem hv2)

theorem C4_witness :
    apply_rewards_and_penalties csA asA blockA cfg1 = some [v1] ∧
    ([v1] : List ValidatorRecord).get? 0 = (csA.validators.get? 0).map (fun v =>
      { v with balance := max 0 (v.balance + ([0] : List Int).getD 0 0 +
        ([0] : List Int).getD 0 0) }) := by
  have happ : apply_rewards_and_penalties csA asA blockA cfg1 = some [v1] := by decide
  have hffg : calculate_ffg_rewards csA asA blockA cfg1 = some [0] := by decide
  have hcross : calculate_crosslink_rewards csA asA blockA cfg1 = some [0] := by decide
  refine ⟨happ, ?_⟩
  have hfacts := (C4_reward_application (by decide) hffg hcross happ).2 0 (by decide)
  exact hfacts.1 (by decide)

theorem list_set_get?_other (l : List α) {i j : Nat} (a : α) (hij : i ≠ j) :
    (l.set i a).get? j = l.get? j := by
  induction l generalizing i j with
  | nil => rfl
  | cons x t ih =>
    cases i with
    | zero => cases j with
      | zero => exact absurd rfl hij
      | succ m => rfl
    | succ n => cases j with
      | zero => rfl
      | succ m => simpa [List.set] using ih (fun hh => hij (by omega))

theorem list_set_get?_self (l : List α) {i : Nat} (a : α) (hi : i < l.length) :
    (l.set i a).get? i = some a := by
  induction l generalizing i with
  | nil => simp at hi
  | cons x t ih =>
    cases i with
    | zero => rfl
    | succ n => simpa [List.set] using ih (by simpa using hi)

theorem list_get?_lt (l : List α) (n : Nat) (a : α) (h : l.get? n = some a) :
    n < l.length := by
  induction l generalizing n with
  | nil => simp [List.get?] at h
  | cons x t ih =>
    cases n with
    | zero => simp
    | succ m => simpa using ih m h

/-- Once a crosslink record has been promoted to the current dynasty,
later attestations of the cycle cannot overwrite it. -/
theorem crosslink_fold_stable (cSt : CrystallizedState) (cfg : Config) (s : Nat)
    (target : CrosslinkRecord) (htd : target.dynasty = cSt.current_dynasty) :
    ∀ (l : List AttestationRecord) (tab : (Nat × Nat) → Int) (cls : List CrosslinkRecord),
      cls.get? s = some target →
      ((l.foldl (crosslink_step cSt cfg) (tab, cls)).2).get? s = some target := by
  intro l
  induction l with
  | nil => intro tab cls hcls; exact hcls
  | cons a rest ih =>
    intro tab cls hcls
    rw [List.foldl_cons]
    by_cases hsh : a.shard_id = s
    · have hgd : ((cls.get? a.shard_id).getD ⟨0, 0, 0⟩).dynasty = cSt.current_dynasty := by
        rw [hsh, hcls]
        exact htd
      simp only [crosslink_step]
      rw [if_neg (fun hc => absurd hc.2 (by rw [hgd]; exact lt_irrefl _))]
      exact ih _ _ hcls
    · simp only [crosslink_step]
      split
      · exact ih _ _ (by rw [list_set_get?_other _ _ hsh]; exact hcls)
      · exact ih _ _ hcls

/-- Shards with no pending attestation keep their crosslink record. -/
theorem crosslink_fold_untouched (cSt : CrystallizedState) (cfg : Config) (s2 : Nat) :
    ∀ (l : List AttestationRecord) (tab : (Nat × Nat) → Int) (cls : List CrosslinkRecord),
      (∀ a ∈ l, a.shard_id ≠ s2) →
      ((l.foldl (crosslink_step cSt cfg) (tab, cls)).2).get? s2 = cls.get? s2 := by
  intro l
  induction l with
  | nil => intro tab cls _; rfl
  | cons a rest ih =>
    intro tab cls hne
    rw [List.foldl_cons]
    simp only [crosslink_step]
    split
    · rw [ih _ _ (fun x hx => hne x (List.mem_cons_of_mem _ hx)),
        list_set_get?_other _ _ (hne a (List.mem_cons_self a rest))]
    · exact ih _ _ (fun x hx => hne x (List.mem_cons_of_mem _ hx))

/-- If every pending attestation of shard `s` carries the same hash and
slot, the group meets the 2/3 threshold and the current record belongs
to an older dynasty, then the fold promotes the record of shard `s`. -/
theorem crosslink_fold_sets (cSt : CrystallizedState) (cfg : Config) (s h t : Nat) :
    ∀ (l : List AttestationRecord) (tab : (Nat × Nat) → Int) (cls : List CrosslinkRecord)
      (orig : CrosslinkRecord),
      cls.get? s = some orig →
      orig.dynasty < cSt.current_dynasty →
      (∀ a ∈ l, a.shard_id = s → a.shard_block_hash = h ∧ a.slot = t) →
      (∃ a ∈ l, a.shard_id = s) →
      2 * committee_balance cSt (committee_for cSt t s cfg) ≤
        3 * (tab (s, h) +
          ((l.filter (fun a => a.shard_id == s)).map
            (fun a => att_voted_balance cSt a cfg)).sum) →
      ((l.foldl (crosslink_step cSt cfg) (tab, cls)).2).get? s =
        some ⟨cSt.current_dynasty, cSt.last_state_recalc + cfg.cycle_length, h⟩ := by
  intro l
  induction l with
  | nil =>
    intro tab cls orig hcls hdyn hsame hex hthr
    obtain ⟨a, ha, -⟩ := hex
    exact absurd ha (List.not_mem_nil a)
  | cons a rest ih =>
    intro tab cls orig hcls hdyn hsame hex hthr
    rw [List.foldl_cons]
    by_cases hsh : a.shard_id = s
    · obtain ⟨hah, hat⟩ := hsame a (List.mem_cons_self a rest) hsh
      have hcomm : get_attestation_indices cSt a cfg = committee_for cSt t s cfg := by
        unfold get_attestation_indices
        rw [hat, hsh]
      have hfilter : (a :: rest).filter (fun x => x.shard_id == s) =
          a :: rest.filter (fun x => x.shard_id == s) :=
        List.filter_cons_of_pos (by simp [hsh])
      simp only [crosslink_step]
      by_cases hc2 : 2 * committee_balance cSt (committee_for cSt t s cfg) ≤
          3 * (tab (s, h) + att_voted_balance cSt a cfg)
      · rw [if_pos ⟨by rw [hcomm, hsh, hah]; exact hc2, by rw [hsh, hcls]; exact hdyn⟩]
        have hlt : s < cls.length := list_get?_lt _ _ _ hcls
        refine crosslink_fold_stable cSt cfg s _ rfl rest _ _ ?_
        rw [hah, hsh]
        exact list_set_get?_self _ _ hlt
      · rw [if_neg (fun hc => hc2 (by
          have hcc := hc.1
          rw [hcomm, hsh, hah] at hcc
          exact hcc))]
        by_cases hex2 : ∃ x ∈ rest, x.shard_id = s
        · refine ih _ cls orig hcls hdyn
            (fun x hx hxs => hsame x (List.mem_cons_of_mem _ hx) hxs) hex2 ?_
          dsimp only
          rw [if_pos (by rw [hsh, hah]), hsh, hah]
          rw [hfilter] at hthr
          simp only [List.map_cons, List.sum_cons] at hthr
          omega
        · exfalso
          have hnil : rest.filter (fun x => x.shard_id == s) = [] := by
            rw [List.filter_eq_nil_iff]
            intro x hx
            simp only [beq_iff_eq]
            exact fun hxs => hex2 ⟨x, hx, hxs⟩
          rw [hfilter, hnil] at hthr
          simp only [List.map_cons, List.map_nil, List.sum_cons, List.sum_nil] at hthr
          apply hc2
          omega
    · have hkeyne : ((s, h) : Nat × Nat) ≠ (a.shard_id, a.shard_block_hash) := by
        intro heq
        injection heq with h1 h2
        exact hsh h1.symm
      have hsum : (a :: rest).filter (fun x => x.shard_id == s) =
          rest.filter (fun x => x.shard_id == s) :=
        List.filter_cons_of_neg (by simp [hsh])
      have hex2 : ∃ x ∈ rest, x.shard_id = s := by
        obtain ⟨x, hx, hxs⟩ := hex
        cases List.mem_cons.mp hx with
        | inl heq =>
          rw [heq] at hxs
          exact absurd hxs hsh
        | inr hmem => exact ⟨x, hmem, hxs⟩
      rw [hsum] at hthr
      simp only [crosslink_step]
      split
      · refine ih _ _ orig ?_ hdyn
          (fun x hx hxs => hsame x (List.mem_cons_of_mem _ hx) hxs) hex2 ?_
        · rw [list_set_get?_other _ _ hsh]
          exact hcls
        · dsimp only
          rw [if_neg hkeyne]
          exact hthr
      · refine ih _ _ orig hcls hdyn
          (fun x hx hxs => hsame x (List.mem_cons_of_mem _ hx) hxs) hex2 ?_
        dsimp only
        rw [if_neg hkeyne]
        exact hthr

/-- C3 (amended): the per-attestation promotion of
`process_updated_crosslinks`, specialised to a shard whose pending
attestations all agree on one `(shard_block_hash, slot)` pair: when the
accumulated group balance reaches the 2/3 committee threshold and the
stored record belongs to an older dynasty, the returned record of that
shard is `{current_dynasty, last_state_recalc + cycle_length, h}`, and
the records of shards with no pending attestation are unchanged.
(With competing hashes for one shard the first promoted group wins and
later groups cannot overwrite it, which refutes the unrestricted
claim.) -/
theorem C3_crosslink_promotion (cSt : CrystallizedState) (aSt : ActiveState) (cfg : Config)
    (s h t : Nat) (orig : CrosslinkRecord)
    (hcls : cSt.crosslink_records.get? s = some orig)
    (hdyn : orig.dynasty < cSt.current_dynasty)
    (hsame : ∀ a ∈ aSt.pending_attestations, a.shard_id = s →
      a.shard_block_hash = h ∧ a.slot = t)
    (hex : ∃ a ∈ aSt.pending_attestations, a.shard_id = s)
    (hthr : 2 * committee_balance cSt (committee_for cSt t s cfg) ≤
      3 * group_balance cSt aSt.pending_attestations s cfg) :
    (process_updated_crosslinks cSt aSt cfg).get? s =
      some ⟨cSt.current_dynasty, cSt.last_state_recalc + cfg.cycle_length, h⟩ ∧
    ∀ s2, (∀ a ∈ aSt.pending_attestations, a.shard_id ≠ s2) →
      (process_updated_crosslinks cSt aSt cfg).get? s2 =
        cSt.crosslink_records.get? s2 := by
  constructor
  · unfold process_updated_crosslinks
    refine crosslink_fold_sets cSt cfg s h t aSt.pending_attestations _ _ orig hcls hdyn
      hsame hex ?_
    unfold group_balance at hthr
    omega
  · intro s2 hs2
    unfold process_updated_crosslinks
    exact crosslink_fold_untouched cSt cfg s2 aSt.pending_attestations _ _ hs2

/-- C3 counterexample: two fully voted pending attestations for shard 0
carry hashes 1 and 2; both groups meet the 2/3 threshold and the input
record has an older dynasty, but the returned record keeps hash 1, so
the claim fails for the group with hash 2. -/
theorem C3_counterexample_competing_groups :
    2 * committee_balance csA (committee_for csA 0 0 cfg1) ≤
      3 * ((asC.pending_attestations.filter
        (fun a => a.shard_id == 0 && a.shard_block_hash == 2)).map
        (fun a => att_voted_balance csA a cfg1)).sum ∧
    ((csA.crosslink_records.get? 0).getD ⟨0, 0, 0⟩).dynasty < csA.current_dynasty ∧
    (process_updated_crosslinks csA asC cfg1).get? 0 ≠
      some ⟨csA.current_dynasty, csA.last_state_recalc + cfg1.cycle_length, 2⟩ ∧
    (process_updated_crosslinks csA asC cfg1).get? 0 =
      some ⟨csA.current_dynasty, csA.last_state_recalc + cfg1.cycle_length, 1⟩ :=
  ⟨by decide, by decide, by decide, by decide⟩

theorem C3_witness :
    (process_updated_crosslinks csA asC1 cfg1).get? 0 =
      some ⟨csA.current_dynasty, csA.last_state_recalc + cfg1.cycle_length, 1⟩ ∧
    (process_updated_crosslinks csA asC1 cfg1).get? 5 =
      csA.crosslink_records.get? 5 := by
  have hmain := C3_crosslink_promotion csA asC1 cfg1 0 1 0 ⟨0, 0, 0⟩ (by decide) (by decide)
    (by decide) ⟨attC1, by decide, by decide⟩ (by decide)
  exact ⟨hmain.1, hmain.2 5 (by decide)⟩

end AtcChain
